import Mathlib

/-!
TermView: colour transfer functions, terminal geometry and resampling map.

A shallow embedding of the pure parts of `termview.cc`:

* `sRGBToLinear` / `LinearToSRGB` (lines 40-56), over an arbitrary linearly
  ordered field `K`, with `std::pow` taken as a parameter.  Exact real
  arithmetic is the instance `K = ℝ`, `pow = Real.rpow`; rounding of the
  intermediate `float`/`double` values is not modelled.
* `GetScreenSize` (lines 58-93), with the environment and the `ioctl` result
  passed in as explicit inputs, and with the outcome of the float-to-`size_t`
  conversions that C++ leaves undefined passed in as the function `ub`.
* the scale, the sample map and the interpolation choice of `DisplayImage`
  (lines 95-126).
-/

namespace TermView

/-! ## Colour converter -/

section Color

variable {K : Type*} [LinearOrderedField K]

/-- The branch threshold `(uchar) (0.04045 * 255)` of `sRGBToLinear`: the
product is truncated to an 8-bit unsigned integer. -/
def sRGBThreshold : ℕ := ⌊(0.04045 : ℚ) * 255⌋₊ % 256

/-- `sRGBToLinear(uchar x)`, lines 40-46.  `pow` stands for `std::pow`. -/
def sRGBToLinear (pow : K → K → K) (x : ℕ) : K :=
  if x ≤ sRGBThreshold then
    (x : K) / (12.92 * 255)
  else
    pow ((x : K) / (1.055 * 255) + 0.055) 2.4

/-- `LinearToSRGB(float x)`, lines 48-56.  `pow` stands for `std::pow`. -/
def LinearToSRGB (pow : K → K → K) (x : K) : K :=
  if x ≤ 0 then
    0
  else if x ≤ 0.0031308 then
    x * (12.92 * 255)
  else
    min (pow x (1 / 2.4) * (1.055 * 255) - (0.055 * 255)) 255.0

end Color

/-! ## Terminal geometry resolver -/

/-- What `std::getenv` followed by `std::stof` yields for one environment
variable: the variable is absent (`getenv` returns null), `stof` throws, or
`stof` returns a finite value (every `float` is a rational number). -/
inductive EnvVar where
  | unset
  | unparseable
  | parsed (v : ℚ)

/-- Conversion of a floating-point value to the 64-bit `size_t`.  For a
value in `(-1, 2^64)` C++ defines the result: the fractional part is
truncated.  Outside that range the conversion is undefined behaviour and the
result depends on the compiler and the machine; it is the parameter `ub`,
reduced to 64 bits. -/
def toSizeT (ub : ℚ → ℕ) (v : ℚ) : ℕ :=
  if -1 < v ∧ v < 2 ^ 64 then ⌊v⌋₊ else ub v % 2 ^ 64

/-- One possible outcome of the undefined conversions: each yields 0. -/
def zeroOutOfRange : ℚ → ℕ := fun _ => 0

/-- The fields of `struct winsize` read by `GetScreenSize`. -/
structure WinSize where
  ws_row : ℕ
  ws_col : ℕ

/-- The two output parameters of `GetScreenSize`. -/
structure ScreenSize where
  cols : ℕ
  rows : ℕ
deriving DecidableEq

/-- `GetScreenSize(cols, rows)`, lines 58-93.  `str_rows` and `str_cols` are
the outcomes for `ROWS` and `COLUMNS`; `screen_size` is `none` when the
`ioctl` returns `-1` and the reported window size otherwise; `ub` gives the
result of a float-to-`size_t` conversion that C++ leaves undefined. -/
def GetScreenSize (ub : ℚ → ℕ) (str_rows str_cols : EnvVar)
    (screen_size : Option WinSize) : ScreenSize :=
  let rows : ℕ := 0
  let cols : ℕ := 0
  let rows := match str_rows with
    | .parsed v => toSizeT ub (v * 2)
    | _ => rows
  let cols := match str_cols with
    | .parsed v => toSizeT ub v
    | _ => cols
  if rows ≠ 0 ∧ cols ≠ 0 then
    ⟨cols, rows⟩
  else
    let rows := match screen_size with
      | some ws => if ws.ws_row ≠ 0 then ws.ws_row * 2 else rows
      | none => rows
    let cols := match screen_size with
      | some ws => if ws.ws_col ≠ 0 then ws.ws_col else cols
      | none => cols
    let rows := if rows = 0 then 48 else rows
    let cols := if cols = 0 then 80 else cols
    ⟨cols, rows⟩

/-! ## Resampler -/

/-- The interpolation flags that `DisplayImage` can pass to `cv::remap`. -/
inductive Interpolation where
  | INTER_AREA
  | INTER_LANCZOS4
  | INTER_CUBIC
deriving DecidableEq

section Resampler

variable {K : Type*} [LinearOrderedField K]

/-- The interpolation argument of `cv::remap`, lines 121-125. -/
def interpolation (scale par : K) : Interpolation :=
  if scale > 1 ∧ scale * (par * 2) > 1 then
    .INTER_AREA
  else if scale < 0.5 ∧ scale * (par * 2) < 0.5 then
    .INTER_LANCZOS4
  else
    .INTER_CUBIC

/-- The kernel choice in the words of the specification: area averaging if
`scale > 1` and `scale·2·PAR > 1`; else Lanczos if `scale < 0.5` and
`scale·2·PAR < 0.5`; else bicubic. -/
def specKernel (scale par : K) : Interpolation :=
  if 1 < scale ∧ 1 < scale * 2 * par then
    .INTER_AREA
  else if scale < 1 / 2 ∧ scale * 2 * par < 1 / 2 then
    .INTER_LANCZOS4
  else
    .INTER_CUBIC

/-- The value of `scale_x`, line 98, for an image `W` pixels wide. -/
def scale_x (W cols : ℕ) (par : K) : K := (W : K) / (cols : K) / (par * 2)

/-- The value of `scale_y`, line 99, for an image `H` pixels high. -/
def scale_y (H rows : ℕ) : K := (H : K) / (rows : K)

/-- The value of `scale`, line 100. -/
def scale (W H cols rows : ℕ) (par : K) : K :=
  max (scale_x W cols par) (scale_y H rows)

/-- The value of `center_from_x`, line 104 (`cols - 1` is a `size_t`
subtraction). -/
def center_from_x (cols : ℕ) : K := (((cols - 1 : ℕ) : K)) / 2

/-- The value of `center_from_y`, line 105. -/
def center_from_y (rows : ℕ) : K := (((rows - 1 : ℕ) : K)) / 2

/-- The value of `center_to_x`, line 106 (`image.cols - 1` is an `int`
subtraction). -/
def center_to_x (W : ℕ) : K := (((W : ℤ) - 1 : ℤ) : K) / 2

/-- The value of `center_to_y`, line 107. -/
def center_to_y (H : ℕ) : K := (((H : ℤ) - 1 : ℤ) : K) / 2

/-- The source x-coordinate `to_x` of line 109 at destination abscissa `x`. -/
def to_x (W H cols rows : ℕ) (par : K) (x : K) : K :=
  (x - center_from_x cols) * scale W H cols rows par * (par * 2) + center_to_x W

/-- The source y-coordinate `to_y` of line 115 at destination ordinate `y`. -/
def to_y (W H cols rows : ℕ) (par : K) (y : K) : K :=
  (y - center_from_y rows) * scale W H cols rows par + center_to_y H

end Resampler

/-- The dimensions `(rows, cols)` of `screen_image`, line 101: the resampled
buffer is as high as the `rows` value returned by `GetScreenSize`. -/
def screen_image_size (ub : ℚ → ℕ) (str_rows str_cols : EnvVar)
    (screen_size : Option WinSize) : ℕ × ℕ :=
  let s := GetScreenSize ub str_rows str_cols screen_size
  (s.rows, s.cols)

/-- Number of character rows written by the renderer, the bound `rows/2` of
the loop at line 128. -/
def characterRows (s : ScreenSize) : ℕ := s.rows / 2

/-! ## Auxiliary facts -/

theorem sRGBThreshold_eq : sRGBThreshold = 10 := by
  unfold sRGBThreshold
  have h : ⌊(0.04045 : ℚ) * 255⌋₊ = 10 := by
    rw [Nat.floor_eq_iff (by norm_num)]
    constructor <;> norm_num
  rw [h]

theorem toSizeT_of_mem (ub : ℚ → ℕ) {v : ℚ} (h0 : -1 < v) (h1 : v < 2 ^ 64) :
    toSizeT ub v = ⌊v⌋₊ := by
  unfold toSizeT
  rw [if_pos ⟨h0, h1⟩]

theorem toSizeT_lt (ub : ℚ → ℕ) (v : ℚ) : toSizeT ub v < 2 ^ 64 := by
  unfold toSizeT
  split_ifs with h
  · have h2 : ((⌊v⌋₊ : ℕ) : ℚ) < ((2 ^ 64 : ℕ) : ℚ) := by
      rcases le_or_lt 0 v with hv | hv
      · have := Nat.floor_le hv
        push_cast
        linarith [h.2]
      · rw [Nat.floor_of_nonpos hv.le]
        norm_num
    exact_mod_cast h2
  · exact Nat.mod_lt _ (by norm_num)

theorem toSizeT_natCast (ub : ℚ → ℕ) (n : ℕ) (hn : n < 2 ^ 64) :
    toSizeT ub (n : ℚ) = n := by
  have h0 : (-1 : ℚ) < (n : ℚ) := by
    have : (0 : ℚ) ≤ (n : ℚ) := Nat.cast_nonneg n
    linarith
  have h1 : (n : ℚ) < 2 ^ 64 := by exact_mod_cast hn
  rw [toSizeT_of_mem ub h0 h1, Nat.floor_natCast]

theorem toSizeT_natCast_mul_two (ub : ℚ → ℕ) (n : ℕ) (hn : 2 * n < 2 ^ 64) :
    toSizeT ub ((n : ℚ) * 2) = 2 * n := by
  have h : ((n : ℚ) * 2) = ((2 * n : ℕ) : ℚ) := by push_cast; ring
  rw [h, toSizeT_natCast ub (2 * n) hn]

theorem toSizeT_zero (ub : ℚ → ℕ) : toSizeT ub 0 = 0 := by
  have h := toSizeT_natCast ub 0 (by norm_num)
  simpa using h

theorem toSizeT_three_halves_mul_two (ub : ℚ → ℕ) : toSizeT ub (1.5 * 2) = 3 := by
  have h : ((1.5 : ℚ) * 2) = ((3 : ℕ) : ℚ) := by norm_num
  rw [h, toSizeT_natCast ub 3 (by norm_num)]

theorem toSizeT_ten (ub : ℚ → ℕ) : toSizeT ub 10 = 10 := by
  have h : (10 : ℚ) = ((10 : ℕ) : ℚ) := by norm_num
  rw [h, toSizeT_natCast ub 10 (by norm_num)]

/-! ## Terminal geometry: claims C5, C6, C10 -/

/-- C5 (as stated, refuted): with `ROWS` and `COLUMNS` unset and the `ioctl`
failing, `GetScreenSize` does not return 96 pixel-rows.  (No conversion is
performed on this path, so the choice of `ub` is immaterial.) -/
theorem default_geometry_ne_96_rows :
    GetScreenSize zeroOutOfRange .unset .unset none ≠ ⟨80, 96⟩ := by
  unfold GetScreenSize
  decide

/-- C5 (amended): with `ROWS` and `COLUMNS` unset and the `ioctl` failing,
`GetScreenSize` returns exactly `cols = 80` and `rows = 48`; `rows` is the
height of the resampled buffer of `DisplayImage`, so the default is 48
pixel-rows, rendered as 24 character rows. -/
theorem GetScreenSize_default (ub : ℚ → ℕ) :
    GetScreenSize ub .unset .unset none = ⟨80, 48⟩ ∧
    screen_image_size ub .unset .unset none = (48, 80) ∧
    characterRows (GetScreenSize ub .unset .unset none) = 24 := by
  have h : GetScreenSize ub .unset .unset none = ⟨80, 48⟩ := by
    unfold GetScreenSize
    rfl
  unfold screen_image_size characterRows
  rw [h]
  decide

/-- C6 (as stated, refuted): for `ROWS=1.5`, `COLUMNS=10` the result is
`cols = 10`, `rows = 3`, and 3 is odd.  (Both conversions are in range, so
the choice of `ub` is immaterial.) -/
theorem GetScreenSize_fractional_rows_odd :
    GetScreenSize zeroOutOfRange (.parsed 1.5) (.parsed 10) none = ⟨10, 3⟩ ∧
    ¬ (1 ≤ (GetScreenSize zeroOutOfRange (.parsed 1.5) (.parsed 10) none).cols ∧
       1 ≤ (GetScreenSize zeroOutOfRange (.parsed 1.5) (.parsed 10) none).rows ∧
       Even (GetScreenSize zeroOutOfRange (.parsed 1.5) (.parsed 10) none).rows) := by
  have h : GetScreenSize zeroOutOfRange (.parsed 1.5) (.parsed 10) none = ⟨10, 3⟩ := by
    unfold GetScreenSize
    simp only [toSizeT_three_halves_mul_two, toSizeT_ten]
    decide
  refine ⟨h, ?_⟩
  rw [h]
  decide

/-- C6 (amended): for every outcome of `ROWS` and `COLUMNS`, every result
of the device query and every behaviour `ub` of the undefined conversions,
`GetScreenSize` returns `cols ≥ 1` and `rows ≥ 1`; and `rows` is even
provided that the `ROWS` override, when it parses to a value `v`, has an even
converted double `⌊2·v⌋` (as every integer `v` in range has). -/
theorem GetScreenSize_invariant (ub : ℚ → ℕ) (str_rows str_cols : EnvVar)
    (screen_size : Option WinSize) :
    1 ≤ (GetScreenSize ub str_rows str_cols screen_size).cols ∧
    1 ≤ (GetScreenSize ub str_rows str_cols screen_size).rows ∧
    ((∀ v, str_rows = .parsed v → Even (toSizeT ub (v * 2))) →
      Even (GetScreenSize ub str_rows str_cols screen_size).rows) := by
  unfold GetScreenSize
  rcases screen_size with _ | ws <;> rcases str_rows with _ | _ | v <;>
    rcases str_cols with _ | _ | w <;> simp only [] <;>
    (refine ⟨?_, ?_, fun hv => ?_⟩) <;>
    (try have hv2 := Nat.even_iff.mp (hv _ rfl)) <;>
    split_ifs <;> dsimp only <;> (try rw [Nat.even_iff]) <;> omega

/-- Witness for `GetScreenSize_invariant`: `ROWS=10`, `COLUMNS=40`, where
`⌊2·10⌋ = 20` is even. -/
theorem GetScreenSize_invariant_witness :
    1 ≤ (GetScreenSize zeroOutOfRange (.parsed 10) (.parsed 40) none).cols ∧
    1 ≤ (GetScreenSize zeroOutOfRange (.parsed 10) (.parsed 40) none).rows ∧
    Even (GetScreenSize zeroOutOfRange (.parsed 10) (.parsed 40) none).rows := by
  have hp : ∀ v, EnvVar.parsed 10 = .parsed v →
      Even (toSizeT zeroOutOfRange (v * 2)) := by
    intro v hv
    cases hv
    have h : ((10 : ℚ) * 2) = ((20 : ℕ) : ℚ) := by norm_num
    rw [h, toSizeT_natCast _ 20 (by norm_num)]
    decide
  have h := GetScreenSize_invariant zeroOutOfRange (.parsed 10) (.parsed 40) none
  exact ⟨h.1, h.2.1, h.2.2 hp⟩

/-- C10 (as stated, refuted): `ROWS=1e19` (parsed by `stof` to the float
`9999999980506447872`) and `COLUMNS=10` are positive integers `r`, `c`, but
`2·r ≥ 2^64` does not fit a `size_t`, and the conversion is undefined.  When
the undefined conversion yields 0 the result is the default `(10, 48)`, and
whatever it yields the result is not `(c, 2·r)`. -/
theorem overflowing_override_not_kept :
    GetScreenSize zeroOutOfRange (.parsed ((9999999980506447872 : ℕ) : ℚ))
      (.parsed ((10 : ℕ) : ℚ)) none = ⟨10, 48⟩ ∧
    ∀ ub : ℚ → ℕ,
      GetScreenSize ub (.parsed ((9999999980506447872 : ℕ) : ℚ))
        (.parsed ((10 : ℕ) : ℚ)) none ≠ ⟨10, 2 * 9999999980506447872⟩ := by
  constructor
  · have h1 : toSizeT zeroOutOfRange (((9999999980506447872 : ℕ) : ℚ) * 2) = 0 := by
      unfold toSizeT zeroOutOfRange
      rw [if_neg (by norm_num), Nat.zero_mod]
    have h2 : toSizeT zeroOutOfRange ((10 : ℕ) : ℚ) = 10 :=
      toSizeT_natCast _ 10 (by norm_num)
    unfold GetScreenSize
    simp only [h1, h2]
    decide
  · intro ub h
    have hlt := toSizeT_lt ub (((9999999980506447872 : ℕ) : ℚ) * 2)
    have hrows := congrArg ScreenSize.rows h
    unfold GetScreenSize at hrows
    simp only [] at hrows
    split_ifs at hrows <;> dsimp only at hrows <;> omega

/-- C10 (amended): an environment override survives only when both
overrides are non-zero.  If exactly one of `ROWS` / `COLUMNS` parses to a
positive number (the other being unset, unparseable or zero) and the device
reports non-zero `ws_row` and `ws_col`, the result is `(ws_col, 2·ws_row)`;
whereas for `ROWS = r` and `COLUMNS = c` with positive integers `r`, `c`
that fit the 64-bit `size_t` after conversion (`2·r < 2^64`, `c < 2^64`) the
result is `(c, 2·r)` whatever the device query `screen_size` yields. -/
theorem GetScreenSize_override (ub : ℚ → ℕ) (str_rows str_cols : EnvVar)
    (ws : WinSize) (r c : ℕ) (screen_size : Option WinSize)
    (hrow : ws.ws_row ≠ 0) (hcol : ws.ws_col ≠ 0)
    (hone : ((∃ v, 0 < v ∧ str_rows = .parsed v) ∧
              (str_cols = .unset ∨ str_cols = .unparseable ∨ str_cols = .parsed 0)) ∨
            ((∃ v, 0 < v ∧ str_cols = .parsed v) ∧
              (str_rows = .unset ∨ str_rows = .unparseable ∨ str_rows = .parsed 0)))
    (hr : 0 < r) (hc : 0 < c) (hr64 : 2 * r < 2 ^ 64) (hc64 : c < 2 ^ 64) :
    GetScreenSize ub str_rows str_cols (some ws) = ⟨ws.ws_col, 2 * ws.ws_row⟩ ∧
    GetScreenSize ub (.parsed r) (.parsed c) screen_size = ⟨c, 2 * r⟩ := by
  constructor
  · have key : ∀ a b : ℕ, a = 0 ∨ b = 0 →
        (if a ≠ 0 ∧ b ≠ 0 then (⟨b, a⟩ : ScreenSize) else
          ⟨if (if ws.ws_col ≠ 0 then ws.ws_col else b) = 0 then 80
            else (if ws.ws_col ≠ 0 then ws.ws_col else b),
           if (if ws.ws_row ≠ 0 then ws.ws_row * 2 else a) = 0 then 48
            else (if ws.ws_row ≠ 0 then ws.ws_row * 2 else a)⟩) =
          ⟨ws.ws_col, 2 * ws.ws_row⟩ := by
      intro a b hab
      have h1 : ¬ (a ≠ 0 ∧ b ≠ 0) := by omega
      have h2 : ¬ (ws.ws_row * 2 = 0) := by omega
      rw [if_neg h1, if_pos hcol, if_pos hrow, if_neg hcol, if_neg h2, Nat.mul_comm]
    unfold GetScreenSize
    rcases hone with ⟨⟨v, -, rfl⟩, rfl | rfl | rfl⟩ | ⟨⟨v, -, rfl⟩, rfl | rfl | rfl⟩
    · exact key _ 0 (Or.inr rfl)
    · exact key _ 0 (Or.inr rfl)
    · exact key _ _ (Or.inr (toSizeT_zero ub))
    · exact key 0 _ (Or.inl rfl)
    · exact key 0 _ (Or.inl rfl)
    · refine key _ _ (Or.inl ?_)
      show toSizeT ub (0 * 2) = 0
      rw [zero_mul, toSizeT_zero]
  · unfold GetScreenSize
    simp only [toSizeT_natCast ub c hc64, toSizeT_natCast_mul_two ub r hr64]
    have h1 : 2 * r ≠ 0 ∧ c ≠ 0 := by omega
    rw [if_pos h1]

/-- Witness for `GetScreenSize_override`: `ROWS=10` with `COLUMNS` unset on a
132 x 43 terminal gives `(132, 86)`; `ROWS=10`, `COLUMNS=40` gives
`(40, 20)`. -/
theorem GetScreenSize_override_witness :
    GetScreenSize zeroOutOfRange (.parsed 10) .unset (some ⟨43, 132⟩) = ⟨132, 2 * 43⟩ ∧
    GetScreenSize zeroOutOfRange (.parsed (10 : ℕ)) (.parsed (40 : ℕ)) none =
      ⟨40, 2 * 10⟩ :=
  GetScreenSize_override zeroOutOfRange (.parsed 10) .unset ⟨43, 132⟩ 10 40 none
    (by decide) (by decide)
    (Or.inl ⟨⟨10, by norm_num, rfl⟩, Or.inl rfl⟩) (by decide) (by decide)
    (by norm_num) (by norm_num)

/-! ## Resampler: claims C7, C8 -/

section ResamplerFacts

variable {K : Type*} [LinearOrderedField K]

theorem scale_x_le_scale (W H cols rows : ℕ) (par : K) :
    scale_x W cols par ≤ scale W H cols rows par :=
  le_max_left _ _

theorem scale_y_le_scale (W H cols rows : ℕ) (par : K) :
    (scale_y H rows : K) ≤ scale W H cols rows par :=
  le_max_right _ _

/-- C7: the interpolation passed to `cv::remap` is the three-way function of
the specification: it equals `specKernel`, i.e. it is area averaging exactly
when `scale > 1` and `scale·2·PAR > 1`, otherwise Lanczos exactly when
`scale < 0.5` and `scale·2·PAR < 0.5`, otherwise bicubic.  The boundaries are
strict (`scale = 1` and `scale = 0.5` give bicubic), `(2.0, 0.5)` gives area
averaging, `(0.2, 0.5)` gives Lanczos and `scale = 0.8` gives bicubic. -/
theorem interpolation_three_way (scale par : K) :
    interpolation scale par = specKernel scale par ∧
    (interpolation scale par = .INTER_AREA ↔ 1 < scale ∧ 1 < scale * 2 * par) ∧
    (interpolation scale par = .INTER_LANCZOS4 ↔
      ¬ (1 < scale ∧ 1 < scale * 2 * par) ∧ scale < 0.5 ∧ scale * 2 * par < 0.5) ∧
    (interpolation scale par = .INTER_CUBIC ↔
      ¬ (1 < scale ∧ 1 < scale * 2 * par) ∧
      ¬ (scale < 0.5 ∧ scale * 2 * par < 0.5)) ∧
    interpolation 1 par = .INTER_CUBIC ∧
    interpolation 0.5 par = .INTER_CUBIC ∧
    interpolation (2.0 : K) 0.5 = .INTER_AREA ∧
    interpolation (0.2 : K) 0.5 = .INTER_LANCZOS4 ∧
    interpolation 0.8 par = .INTER_CUBIC := by
  have e1 : scale * (par * 2) = scale * 2 * par := by ring
  have e2 : (0.5 : K) = 1 / 2 := by norm_num
  refine ⟨?_, ?_, ?_, ?_, ?_, ?_, ?_, ?_, ?_⟩
  · unfold interpolation specKernel
    simp only [gt_iff_lt, e1, e2]
  · unfold interpolation
    simp only [gt_iff_lt, e1]
    split_ifs <;> simp_all
  · unfold interpolation
    simp only [gt_iff_lt, e1]
    split_ifs <;> simp_all
  · unfold interpolation
    simp only [gt_iff_lt, e1]
    split_ifs <;> simp_all
  · unfold interpolation
    norm_num
  · unfold interpolation
    norm_num
  · unfold interpolation
    norm_num
  · unfold interpolation
    norm_num
  · unfold interpolation
    norm_num

/-- C8: with `scale = max(scale_x, scale_y)` the whole image fits in the
terminal grid: for every image size `W, H` (in particular `W, H ≥ 1`), grid
`cols, rows ≥ 1` and `PAR > 0`, the mapped destination extent covers the source extent on both
axes: `to_x(-1/2) ≤ -1/2`, `to_x(cols - 1/2) ≥ W - 1/2`,
`to_y(-1/2) ≤ -1/2` and `to_y(rows - 1/2) ≥ H - 1/2`. -/
theorem image_fits_grid (W H cols rows : ℕ) (par : K)
    (hcols : 1 ≤ cols) (hrows : 1 ≤ rows) (hpar : 0 < par) :
    to_x W H cols rows par (-1 / 2) ≤ -1 / 2 ∧
    (W : K) - 1 / 2 ≤ to_x W H cols rows par ((cols : K) - 1 / 2) ∧
    to_y W H cols rows par (-1 / 2) ≤ -1 / 2 ∧
    (H : K) - 1 / 2 ≤ to_y W H cols rows par ((rows : K) - 1 / 2) := by
  have hc0 : (0 : K) < (cols : K) := by exact_mod_cast hcols
  have hr0 : (0 : K) < (rows : K) := by exact_mod_cast hrows
  have hp2 : (0 : K) < par * 2 := by linarith
  have hx : (W : K) ≤ scale W H cols rows par * (par * 2) * cols := by
    have h := scale_x_le_scale W H cols rows par
    unfold scale_x at h
    rw [div_le_iff₀ hp2, div_le_iff₀ hc0] at h
    exact h
  have hy : (H : K) ≤ scale W H cols rows par * rows := by
    have h := scale_y_le_scale W H cols rows par
    unfold scale_y at h
    rw [div_le_iff₀ hr0] at h
    exact h
  have ec : (((cols - 1 : ℕ) : K)) = (cols : K) - 1 := by
    rw [Nat.cast_sub hcols, Nat.cast_one]
  have er : (((rows - 1 : ℕ) : K)) = (rows : K) - 1 := by
    rw [Nat.cast_sub hrows, Nat.cast_one]
  have eW : ((((W : ℤ) - 1 : ℤ)) : K) = (W : K) - 1 := by push_cast; ring
  have eH : ((((H : ℤ) - 1 : ℤ)) : K) = (H : K) - 1 := by push_cast; ring
  unfold to_x to_y center_from_x center_from_y center_to_x center_to_y
  rw [ec, er, eW, eH]
  generalize scale W H cols rows par = s at hx hy
  refine ⟨?_, ?_, ?_, ?_⟩
  · have e : (-1 / 2 - ((cols : K) - 1) / 2) * s * (par * 2) + ((W : K) - 1) / 2 =
        -(s * (par * 2) * cols) / 2 + ((W : K) - 1) / 2 := by ring
    rw [e]; linarith
  · have e : ((cols : K) - 1 / 2 - ((cols : K) - 1) / 2) * s * (par * 2) +
        ((W : K) - 1) / 2 = (s * (par * 2) * cols) / 2 + ((W : K) - 1) / 2 := by ring
    rw [e]; linarith
  · have e : (-1 / 2 - ((rows : K) - 1) / 2) * s + ((H : K) - 1) / 2 =
        -(s * rows) / 2 + ((H : K) - 1) / 2 := by ring
    rw [e]; linarith
  · have e : ((rows : K) - 1 / 2 - ((rows : K) - 1) / 2) * s + ((H : K) - 1) / 2 =
        (s * rows) / 2 + ((H : K) - 1) / 2 := by ring
    rw [e]; linarith

/-- Witness for `image_fits_grid`: a 640 x 480 image on the default 80 x 48
grid with `PAR = 1/2`, over the rationals. -/
theorem image_fits_grid_witness :
    to_x 640 480 80 48 (1 / 2 : ℚ) (-1 / 2) ≤ -1 / 2 ∧
    ((640 : ℕ) : ℚ) - 1 / 2 ≤ to_x 640 480 80 48 (1 / 2 : ℚ) (((80 : ℕ) : ℚ) - 1 / 2) ∧
    to_y 640 480 80 48 (1 / 2 : ℚ) (-1 / 2) ≤ -1 / 2 ∧
    ((480 : ℕ) : ℚ) - 1 / 2 ≤ to_y 640 480 80 48 (1 / 2 : ℚ) (((48 : ℕ) : ℚ) - 1 / 2) :=
  image_fits_grid 640 480 80 48 (1 / 2 : ℚ) (by decide) (by decide) (by norm_num)

end ResamplerFacts

/-! ## Colour converter over the reals: auxiliary facts -/

/-- Comparison of a rational power with a constant through integer powers:
`x ^ (p / q) < c` follows from `x ^ p < c ^ q`. -/
theorem rpow_div_lt_of_pow_lt {x c : ℝ} {p q : ℕ} (hq : q ≠ 0) (hx : 0 ≤ x)
    (hc : 0 ≤ c) (h : x ^ p < c ^ q) : x ^ ((p : ℝ) / (q : ℝ)) < c := by
  have hq0 : (0 : ℝ) < ((q : ℝ))⁻¹ := by
    have : (0 : ℝ) < (q : ℝ) := by exact_mod_cast Nat.pos_of_ne_zero hq
    exact inv_pos.mpr this
  have e1 : x ^ ((p : ℝ) / (q : ℝ)) = (x ^ p) ^ ((q : ℝ))⁻¹ := by
    rw [div_eq_mul_inv, Real.rpow_mul hx, Real.rpow_natCast]
  have e2 : c = (c ^ q) ^ ((q : ℝ))⁻¹ := (Real.pow_rpow_inv_natCast hc hq).symm
  rw [e1, e2]
  exact Real.rpow_lt_rpow (pow_nonneg hx p) h hq0

/-- Comparison of a constant with a rational power through integer powers:
`c < x ^ (p / q)` follows from `c ^ q < x ^ p`. -/
theorem lt_rpow_div_of_pow_lt {x c : ℝ} {p q : ℕ} (hq : q ≠ 0) (hx : 0 ≤ x)
    (hc : 0 ≤ c) (h : c ^ q < x ^ p) : c < x ^ ((p : ℝ) / (q : ℝ)) := by
  have hq0 : (0 : ℝ) < ((q : ℝ))⁻¹ := by
    have : (0 : ℝ) < (q : ℝ) := by exact_mod_cast Nat.pos_of_ne_zero hq
    exact inv_pos.mpr this
  have e1 : x ^ ((p : ℝ) / (q : ℝ)) = (x ^ p) ^ ((q : ℝ))⁻¹ := by
    rw [div_eq_mul_inv, Real.rpow_mul hx, Real.rpow_natCast]
  have e2 : c = (c ^ q) ^ ((q : ℝ))⁻¹ := (Real.pow_rpow_inv_natCast hc hq).symm
  rw [e1, e2]
  exact Real.rpow_lt_rpow (pow_nonneg hc q) h hq0

theorem exponent_gamma : (2.4 : ℝ) = ((12 : ℕ) : ℝ) / ((5 : ℕ) : ℝ) := by norm_num

theorem exponent_inv_gamma : (1 / 2.4 : ℝ) = ((5 : ℕ) : ℝ) / ((12 : ℕ) : ℝ) := by
  norm_num

/-- The argument of `std::pow` in the curve branch of `sRGBToLinear`. -/
theorem curve_base_pos (v : ℕ) : (0 : ℝ) < (v : ℝ) / (1.055 * 255) + 0.055 := by
  have : (0 : ℝ) ≤ (v : ℝ) := Nat.cast_nonneg v
  positivity

theorem sRGBToLinear_low (v : ℕ) (hv : v ≤ 10) :
    sRGBToLinear Real.rpow v = (v : ℝ) / (12.92 * 255) := by
  unfold sRGBToLinear
  rw [sRGBThreshold_eq, if_pos hv]

theorem sRGBToLinear_high (v : ℕ) (hv : 11 ≤ v) :
    sRGBToLinear Real.rpow v = ((v : ℝ) / (1.055 * 255) + 0.055) ^ (2.4 : ℝ) := by
  unfold sRGBToLinear
  rw [sRGBThreshold_eq, if_neg (by omega)]
  rfl

/-- The curve branch of `sRGBToLinear` already exceeds the breakpoint of
`LinearToSRGB` at `v = 11`. -/
theorem breakpoint_lt_sRGBToLinear_11 :
    (0.0031308 : ℝ) < ((11 : ℝ) / (1.055 * 255) + 0.055) ^ (2.4 : ℝ) := by
  rw [exponent_gamma]
  apply lt_rpow_div_of_pow_lt (by decide) (by positivity) (by norm_num)
  norm_num

theorem breakpoint_lt_sRGBToLinear (v : ℕ) (hv : 11 ≤ v) :
    (0.0031308 : ℝ) < sRGBToLinear Real.rpow v := by
  rw [sRGBToLinear_high v hv]
  refine lt_of_lt_of_le breakpoint_lt_sRGBToLinear_11 ?_
  have h11 : (11 : ℝ) ≤ (v : ℝ) := by exact_mod_cast hv
  apply Real.rpow_le_rpow (by positivity) _ (by norm_num)
  have : (11 : ℝ) / (1.055 * 255) ≤ (v : ℝ) / (1.055 * 255) :=
    div_le_div_of_nonneg_right h11 (by norm_num)
  linarith

theorem LinearToSRGB_nonpos (x : ℝ) (hx : x ≤ 0) : LinearToSRGB Real.rpow x = 0 := by
  unfold LinearToSRGB
  rw [if_pos hx]

theorem LinearToSRGB_linear (x : ℝ) (h0 : 0 < x) (hx : x ≤ 0.0031308) :
    LinearToSRGB Real.rpow x = x * (12.92 * 255) := by
  unfold LinearToSRGB
  rw [if_neg (not_le.mpr h0), if_pos hx]

theorem LinearToSRGB_curve (x : ℝ) (hx : 0.0031308 < x) :
    LinearToSRGB Real.rpow x =
      min (x ^ (1 / 2.4 : ℝ) * (1.055 * 255) - (0.055 * 255)) 255 := by
  have h0 : ¬ x ≤ 0 := by
    have : (0 : ℝ) < 0.0031308 := by norm_num
    linarith
  unfold LinearToSRGB
  rw [if_neg h0, if_neg (not_le.mpr hx)]
  norm_num

/-- At the breakpoint the curve segment is above `10.31472368`, i.e. less
than `0.00001` below the end `10.31473368` of the linear segment. -/
theorem curve_at_breakpoint_gt :
    (10.31472368 : ℝ) <
      (0.0031308 : ℝ) ^ (1 / 2.4 : ℝ) * (1.055 * 255) - (0.055 * 255) := by
  have h : ((10.31472368 + 0.055 * 255) / (1.055 * 255) : ℝ) <
      (0.0031308 : ℝ) ^ (1 / 2.4 : ℝ) := by
    rw [exponent_inv_gamma]
    apply lt_rpow_div_of_pow_lt (by decide) (by norm_num) (by norm_num)
    norm_num
  have h2 := (div_lt_iff₀ (by norm_num : (0 : ℝ) < 1.055 * 255)).mp h
  linarith

/-- At the first `float` above the breakpoint, `13446684 / 2^32`, the curve
segment is still below the value `13446683 / 2^32 * 12.92 * 255` of the
linear segment at the preceding `float`. -/
theorem curve_after_breakpoint_lt :
    ((13446684 / 2 ^ 32 : ℝ)) ^ (1 / 2.4 : ℝ) * (1.055 * 255) - (0.055 * 255) <
      13446683 / 2 ^ 32 * (12.92 * 255) := by
  have h : ((13446684 / 2 ^ 32 : ℝ)) ^ (1 / 2.4 : ℝ) <
      ((13446683 / 2 ^ 32 * (12.92 * 255) + 0.055 * 255) / (1.055 * 255) : ℝ) := by
    rw [exponent_inv_gamma]
    apply rpow_div_lt_of_pow_lt (by decide) (by norm_num) (by norm_num)
    norm_num
  have h2 := (lt_div_iff₀ (by norm_num : (0 : ℝ) < 1.055 * 255)).mp h
  linarith

theorem curve_mono {x y : ℝ} (hx : 0 ≤ x) (hxy : x ≤ y) :
    x ^ (1 / 2.4 : ℝ) * (1.055 * 255) - (0.055 * 255) ≤
      y ^ (1 / 2.4 : ℝ) * (1.055 * 255) - (0.055 * 255) := by
  have h : x ^ (1 / 2.4 : ℝ) ≤ y ^ (1 / 2.4 : ℝ) :=
    Real.rpow_le_rpow hx hxy (by norm_num)
  have h2 : x ^ (1 / 2.4 : ℝ) * (1.055 * 255) ≤ y ^ (1 / 2.4 : ℝ) * (1.055 * 255) :=
    mul_le_mul_of_nonneg_right h (by norm_num)
  linarith

theorem curve_gt_of_breakpoint_lt {x : ℝ} (hx : 0.0031308 < x) :
    (10.31472368 : ℝ) < x ^ (1 / 2.4 : ℝ) * (1.055 * 255) - (0.055 * 255) :=
  lt_of_lt_of_le curve_at_breakpoint_gt (curve_mono (by norm_num) hx.le)

theorem LinearToSRGB_nonneg (x : ℝ) : 0 ≤ LinearToSRGB Real.rpow x := by
  rcases le_or_lt x 0 with h0 | h0
  · rw [LinearToSRGB_nonpos x h0]
  rcases le_or_lt x 0.0031308 with hb | hb
  · rw [LinearToSRGB_linear x h0 hb]
    positivity
  · rw [LinearToSRGB_curve x hb]
    have := curve_gt_of_breakpoint_lt hb
    exact le_min (by linarith) (by norm_num)

theorem LinearToSRGB_le_255 (x : ℝ) : LinearToSRGB Real.rpow x ≤ 255 := by
  rcases le_or_lt x 0 with h0 | h0
  · rw [LinearToSRGB_nonpos x h0]
    norm_num
  rcases le_or_lt x 0.0031308 with hb | hb
  · rw [LinearToSRGB_linear x h0 hb]
    have : x * (12.92 * 255) ≤ 0.0031308 * (12.92 * 255) :=
      mul_le_mul_of_nonneg_right hb (by norm_num)
    have h2 : (0.0031308 : ℝ) * (12.92 * 255) ≤ 255 := by norm_num
    linarith
  · rw [LinearToSRGB_curve x hb]
    exact min_le_right _ _

/-- `LinearToSRGB` is monotone as long as the pair does not straddle the
breakpoint `0.0031308` from a positive argument. -/
theorem LinearToSRGB_mono_same_side {x y : ℝ} (hxy : x ≤ y)
    (hside : x ≤ 0 ∨ y ≤ 0.0031308 ∨ 0.0031308 < x) :
    LinearToSRGB Real.rpow x ≤ LinearToSRGB Real.rpow y := by
  rcases le_or_lt x 0 with h0 | h0
  · rw [LinearToSRGB_nonpos x h0]
    exact LinearToSRGB_nonneg y
  have hy0 : 0 < y := lt_of_lt_of_le h0 hxy
  rcases hside with h | h | h
  · exact absurd h (not_le.mpr h0)
  · rw [LinearToSRGB_linear x h0 (le_trans hxy h), LinearToSRGB_linear y hy0 h]
    exact mul_le_mul_of_nonneg_right hxy (by norm_num)
  · rw [LinearToSRGB_curve x h, LinearToSRGB_curve y (lt_of_lt_of_le h hxy)]
    exact min_le_min (curve_mono h0.le hxy) le_rfl

theorem sRGBToLinear_mono {a b : ℕ} (hab : a ≤ b) :
    sRGBToLinear Real.rpow a ≤ sRGBToLinear Real.rpow b := by
  have hab2 : (a : ℝ) ≤ (b : ℝ) := by exact_mod_cast hab
  rcases Nat.lt_or_ge b 11 with hb | hb
  · rw [sRGBToLinear_low a (by omega), sRGBToLinear_low b (by omega)]
    exact div_le_div_of_nonneg_right hab2 (by norm_num)
  rcases Nat.lt_or_ge a 11 with ha | ha
  · rw [sRGBToLinear_low a (by omega)]
    have h1 : (a : ℝ) ≤ 10 := by exact_mod_cast Nat.lt_succ_iff.mp ha
    have h2 : (a : ℝ) / (12.92 * 255) ≤ 10 / (12.92 * 255) :=
      div_le_div_of_nonneg_right h1 (by norm_num)
    have h3 : (10 : ℝ) / (12.92 * 255) ≤ 0.0031308 := by norm_num
    have h4 := breakpoint_lt_sRGBToLinear b hb
    linarith
  · rw [sRGBToLinear_high a ha, sRGBToLinear_high b hb]
    apply Real.rpow_le_rpow (curve_base_pos a).le _ (by norm_num)
    have : (a : ℝ) / (1.055 * 255) ≤ (b : ℝ) / (1.055 * 255) :=
      div_le_div_of_nonneg_right hab2 (by norm_num)
    linarith

theorem round_trip_low (v : ℕ) (hv : v ≤ 10) :
    LinearToSRGB Real.rpow (sRGBToLinear Real.rpow v) = (v : ℝ) := by
  rw [sRGBToLinear_low v hv]
  rcases Nat.eq_zero_or_pos v with h0 | h0
  · subst h0
    rw [LinearToSRGB_nonpos _ (by norm_num)]
    norm_num
  · have hv0 : (0 : ℝ) < (v : ℝ) := by exact_mod_cast h0
    have hv10 : (v : ℝ) ≤ 10 := by exact_mod_cast hv
    have h1 : (0 : ℝ) < (v : ℝ) / (12.92 * 255) := by positivity
    have h2 : (v : ℝ) / (12.92 * 255) ≤ 0.0031308 := by
      rw [div_le_iff₀ (by norm_num)]
      norm_num
      linarith
    rw [LinearToSRGB_linear _ h1 h2]
    field_simp

theorem round_trip_high (v : ℕ) (hv : 11 ≤ v) :
    LinearToSRGB Real.rpow (sRGBToLinear Real.rpow v) =
      min ((v : ℝ) + 0.055 * 0.055 * 255) 255 := by
  rw [LinearToSRGB_curve _ (breakpoint_lt_sRGBToLinear v hv), sRGBToLinear_high v hv,
    ← Real.rpow_mul (curve_base_pos v).le]
  have e : (2.4 : ℝ) * (1 / 2.4) = 1 := by norm_num
  rw [e, Real.rpow_one]
  congr 1
  field_simp
  ring

theorem round_trip_mid (v : ℕ) (h11 : 11 ≤ v) (h254 : v ≤ 254) :
    LinearToSRGB Real.rpow (sRGBToLinear Real.rpow v) = (v : ℝ) + 0.055 * 0.055 * 255 := by
  rw [round_trip_high v h11]
  apply min_eq_left
  have : (v : ℝ) ≤ 254 := by exact_mod_cast h254
  norm_num
  linarith

theorem round_trip_255 :
    LinearToSRGB Real.rpow (sRGBToLinear Real.rpow 255) = 255 := by
  rw [round_trip_high 255 (by decide)]
  apply min_eq_right
  norm_num

theorem round_natCast_add_offset (v : ℕ) :
    round ((v : ℝ) + 0.055 * 0.055 * 255) = (v : ℤ) + 1 := by
  rw [round_eq, Int.floor_eq_iff]
  push_cast
  constructor <;> norm_num <;> linarith

/-! ## Colour converter: claims C1, C2, C3, C4, C9 -/

/-- Every byte `v ≤ 254` is mapped into `[0,1]` by `sRGBToLinear`. -/
theorem sRGBToLinear_mem_unit (v : ℕ) (hv : v ≤ 254) :
    0 ≤ sRGBToLinear Real.rpow v ∧ sRGBToLinear Real.rpow v ≤ 1 := by
  have hvr : (v : ℝ) ≤ 254 := by exact_mod_cast hv
  have hv0 : (0 : ℝ) ≤ (v : ℝ) := Nat.cast_nonneg v
  rcases Nat.lt_or_ge v 11 with h | h
  · rw [sRGBToLinear_low v (by omega)]
    constructor
    · positivity
    · rw [div_le_iff₀ (by norm_num)]
      norm_num
      linarith
  · rw [sRGBToLinear_high v h]
    constructor
    · exact Real.rpow_nonneg (curve_base_pos v).le _
    · apply Real.rpow_le_one (curve_base_pos v).le _ (by norm_num)
      have : (v : ℝ) / (1.055 * 255) ≤ 254 / (1.055 * 255) :=
        div_le_div_of_nonneg_right hvr (by norm_num)
      have h2 : (254 : ℝ) / (1.055 * 255) + 0.055 ≤ 1 := by norm_num
      linarith

/-- C1 (the code at the failing input): over exact reals `sRGBToLinear(255)`
is `(255/(1.055·255) + 0.055)^2.4`, the power of a base above `1.0028`, and
so is greater than 1: the image of the byte 255 is outside `[0,1]`. -/
theorem sRGBToLinear_255_gt_one :
    sRGBToLinear Real.rpow 255 = ((255 : ℝ) / (1.055 * 255) + 0.055) ^ (2.4 : ℝ) ∧
    (1.0028 : ℝ) < (255 : ℝ) / (1.055 * 255) + 0.055 ∧
    1 < sRGBToLinear Real.rpow 255 := by
  have h255 := sRGBToLinear_high 255 (by decide)
  refine ⟨by exact_mod_cast h255, by norm_num, ?_⟩
  rw [h255]
  apply Real.one_lt_rpow _ (by norm_num)
  norm_num

/-- C2: for every byte `v ≤ 255` the round trip
`LinearToSRGB(sRGBToLinear(v))` over exact reals differs from `v` by less
than 1, and its rounding to the nearest integer is `v - 1`, `v` or `v + 1`. -/
theorem round_trip_within_one (v : ℕ) (hv : v ≤ 255) :
    |LinearToSRGB Real.rpow (sRGBToLinear Real.rpow v) - (v : ℝ)| < 1 ∧
    (round (LinearToSRGB Real.rpow (sRGBToLinear Real.rpow v)) = (v : ℤ) - 1 ∨
     round (LinearToSRGB Real.rpow (sRGBToLinear Real.rpow v)) = (v : ℤ) ∨
     round (LinearToSRGB Real.rpow (sRGBToLinear Real.rpow v)) = (v : ℤ) + 1) := by
  rcases Nat.lt_or_ge v 11 with h | h
  · rw [round_trip_low v (by omega)]
    refine ⟨by norm_num, Or.inr (Or.inl ?_)⟩
    exact round_natCast v
  rcases Nat.lt_or_ge v 255 with h2 | h2
  · rw [round_trip_mid v h (by omega)]
    refine ⟨?_, Or.inr (Or.inr (round_natCast_add_offset v))⟩
    rw [add_sub_cancel_left, abs_of_nonneg (by norm_num)]
    norm_num
  · have e : v = 255 := by omega
    subst e
    have e2 : ((255 : ℕ) : ℝ) = 255 := by norm_num
    rw [e2, round_trip_255]
    refine ⟨by norm_num, Or.inr (Or.inl ?_)⟩
    exact_mod_cast round_natCast (α := ℝ) 255

/-- Witness for `round_trip_within_one` at `v = 128`. -/
theorem round_trip_within_one_witness :
    |LinearToSRGB Real.rpow (sRGBToLinear Real.rpow 128) - ((128 : ℕ) : ℝ)| < 1 ∧
    (round (LinearToSRGB Real.rpow (sRGBToLinear Real.rpow 128)) = ((128 : ℕ) : ℤ) - 1 ∨
     round (LinearToSRGB Real.rpow (sRGBToLinear Real.rpow 128)) = ((128 : ℕ) : ℤ) ∨
     round (LinearToSRGB Real.rpow (sRGBToLinear Real.rpow 128)) = ((128 : ℕ) : ℤ) + 1) :=
  round_trip_within_one 128 (by decide)

/-- C3 (as stated, refuted): `LinearToSRGB` is not monotone across the
breakpoint.  `13446683 / 2^32` and `13446684 / 2^32` are adjacent `float`
values (24-bit significands, exponent `-32`) on either side of `0.0031308`:
the first takes the linear branch, the second the curve branch, and
`LinearToSRGB(13446684 / 2^32) < LinearToSRGB(13446683 / 2^32)`. -/
theorem LinearToSRGB_not_monotone :
    (13446683 / 2 ^ 32 : ℝ) ≤ 13446684 / 2 ^ 32 ∧
    (13446683 / 2 ^ 32 : ℝ) ≤ 0.0031308 ∧
    (0.0031308 : ℝ) < 13446684 / 2 ^ 32 ∧
    LinearToSRGB Real.rpow (13446684 / 2 ^ 32) <
      LinearToSRGB Real.rpow (13446683 / 2 ^ 32) := by
  refine ⟨by norm_num, by norm_num, by norm_num, ?_⟩
  rw [LinearToSRGB_linear (13446683 / 2 ^ 32) (by norm_num) (by norm_num),
    LinearToSRGB_curve (13446684 / 2 ^ 32) (by norm_num)]
  exact lt_of_le_of_lt (min_le_left _ _) curve_after_breakpoint_lt

/-- C3 (amended): `sRGBToLinear` is monotone non-decreasing on bytes
(including across the branch change between 10 and 11); `LinearToSRGB` is
monotone non-decreasing for real `x ≤ y` that do not straddle the breakpoint
from a positive argument (`x ≤ 0`, or `y ≤ 0.0031308`, or `0.0031308 < x`;
this includes the breakpoint `0` and the clamp at 255); and for arbitrary
`x ≤ y` it can decrease by less than `0.00001`. -/
theorem transfer_functions_monotone (a b : ℕ) (hab : a ≤ b) (x y : ℝ)
    (hxy : x ≤ y) :
    sRGBToLinear Real.rpow a ≤ sRGBToLinear Real.rpow b ∧
    ((x ≤ 0 ∨ y ≤ 0.0031308 ∨ 0.0031308 < x) →
      LinearToSRGB Real.rpow x ≤ LinearToSRGB Real.rpow y) ∧
    LinearToSRGB Real.rpow x < LinearToSRGB Real.rpow y + 0.00001 := by
  refine ⟨sRGBToLinear_mono hab, LinearToSRGB_mono_same_side hxy, ?_⟩
  by_cases hside : x ≤ 0 ∨ y ≤ 0.0031308 ∨ 0.0031308 < x
  · have := LinearToSRGB_mono_same_side hxy hside
    linarith
  · push_neg at hside
    obtain ⟨h0, hy, hx⟩ := hside
    rw [LinearToSRGB_linear x h0 hx, LinearToSRGB_curve y hy]
    have h1 : x * (12.92 * 255) ≤ 0.0031308 * (12.92 * 255) :=
      mul_le_mul_of_nonneg_right hx (by norm_num)
    have h2 := curve_gt_of_breakpoint_lt hy
    have h3 : (10.31472368 : ℝ) <
        min (y ^ (1 / 2.4 : ℝ) * (1.055 * 255) - (0.055 * 255)) 255 :=
      lt_min h2 (by norm_num)
    have h4 : (0.0031308 : ℝ) * (12.92 * 255) = 10.31473368 := by norm_num
    linarith

/-- Witness for `transfer_functions_monotone`: bytes `10 ≤ 11` and reals
`0.5 ≤ 2`, both beyond the breakpoint. -/
theorem transfer_functions_monotone_witness :
    sRGBToLinear Real.rpow 10 ≤ sRGBToLinear Real.rpow 11 ∧
    LinearToSRGB Real.rpow 0.5 ≤ LinearToSRGB Real.rpow 2 :=
  ⟨(transfer_functions_monotone 10 11 (by decide) 0.5 2 (by norm_num)).1,
   (transfer_functions_monotone 10 11 (by decide) 0.5 2 (by norm_num)).2.1
     (Or.inr (Or.inr (by norm_num)))⟩

/-- C4: for every real `x`, `LinearToSRGB(x)` lies in `[0,255]`; it is 0 for
`x ≤ 0`, positive for `x > 0`, and the curve branch
`x^(1/2.4)·1.055·255 − 0.055·255`, reached only for `x > 0.0031308`, is
positive there. -/
theorem LinearToSRGB_range (x : ℝ) :
    0 ≤ LinearToSRGB Real.rpow x ∧ LinearToSRGB Real.rpow x ≤ 255 ∧
    (x ≤ 0 → LinearToSRGB Real.rpow x = 0) ∧
    (0 < x → 0 < LinearToSRGB Real.rpow x) ∧
    (0.0031308 < x →
      LinearToSRGB Real.rpow x =
        min (x ^ (1 / 2.4 : ℝ) * (1.055 * 255) - (0.055 * 255)) 255 ∧
      0 < x ^ (1 / 2.4 : ℝ) * (1.055 * 255) - (0.055 * 255)) := by
  refine ⟨LinearToSRGB_nonneg x, LinearToSRGB_le_255 x, LinearToSRGB_nonpos x, ?_, ?_⟩
  · intro h0
    rcases le_or_lt x 0.0031308 with hb | hb
    · rw [LinearToSRGB_linear x h0 hb]
      positivity
    · rw [LinearToSRGB_curve x hb]
      have := curve_gt_of_breakpoint_lt hb
      exact lt_min (by linarith) (by norm_num)
  · intro hb
    have := curve_gt_of_breakpoint_lt hb
    exact ⟨LinearToSRGB_curve x hb, by linarith⟩

/-- Witness for `LinearToSRGB_range`: at `x = -1` the value is 0, and at
`x = 2` the curve branch is positive. -/
theorem LinearToSRGB_range_witness :
    LinearToSRGB Real.rpow (-1) = 0 ∧
    0 < LinearToSRGB Real.rpow 2 ∧
    0 < (2 : ℝ) ^ (1 / 2.4 : ℝ) * (1.055 * 255) - (0.055 * 255) :=
  ⟨(LinearToSRGB_range (-1)).2.2.1 (by norm_num),
   (LinearToSRGB_range 2).2.2.2.1 (by norm_num),
   ((LinearToSRGB_range 2).2.2.2.2 (by norm_num)).2⟩

/-- C9: the round trip as coded is not the identity: for every byte `v` with
`11 ≤ v ≤ 254`, `sRGBToLinear(v)` lies in the curve branch of `LinearToSRGB`
and `LinearToSRGB(sRGBToLinear(v)) = v + 0.055·0.055·255 = v + 0.771375`,
below the clamp, so its rounding to the nearest integer is `v + 1`; for
`w ≤ 10` and for 255 the round trip returns the byte itself. -/
theorem round_trip_offset (v w : ℕ) (h11 : 11 ≤ v) (h254 : v ≤ 254) (hw : w ≤ 10) :
    0.0031308 < sRGBToLinear Real.rpow v ∧
    LinearToSRGB Real.rpow (sRGBToLinear Real.rpow v) = (v : ℝ) + 0.055 * 0.055 * 255 ∧
    LinearToSRGB Real.rpow (sRGBToLinear Real.rpow v) = (v : ℝ) + 0.771375 ∧
    (v : ℝ) + 0.771375 < 255 ∧
    round (LinearToSRGB Real.rpow (sRGBToLinear Real.rpow v)) = (v : ℤ) + 1 ∧
    LinearToSRGB Real.rpow (sRGBToLinear Real.rpow w) = (w : ℝ) ∧
    LinearToSRGB Real.rpow (sRGBToLinear Real.rpow 255) = 255 := by
  have hmid := round_trip_mid v h11 h254
  have hvr : (v : ℝ) ≤ 254 := by exact_mod_cast h254
  refine ⟨breakpoint_lt_sRGBToLinear v h11, hmid, ?_, ?_, ?_, round_trip_low w hw,
    round_trip_255⟩
  · rw [hmid]; norm_num
  · norm_num; linarith
  · rw [hmid]; exact round_natCast_add_offset v

/-- Witness for `round_trip_offset`: bytes `v = 128` and `w = 7`. -/
theorem round_trip_offset_witness :
    LinearToSRGB Real.rpow (sRGBToLinear Real.rpow 128) = ((128 : ℕ) : ℝ) + 0.771375 ∧
    round (LinearToSRGB Real.rpow (sRGBToLinear Real.rpow 128)) = ((128 : ℕ) : ℤ) + 1 ∧
    LinearToSRGB Real.rpow (sRGBToLinear Real.rpow 7) = ((7 : ℕ) : ℝ) :=
  ⟨(round_trip_offset 128 7 (by decide) (by decide) (by decide)).2.2.1,
   (round_trip_offset 128 7 (by decide) (by decide) (by decide)).2.2.2.2.1,
   (round_trip_offset 128 7 (by decide) (by decide) (by decide)).2.2.2.2.2.1⟩

end TermView
